import Mathlib

/-!
Verification of the myRedis server (`app/` package) against its
natural-language specification.

The development shallowly embeds the Python sources:

* `app/storage.py`   — the `Storage` class (cache map, expiry, list ops);
* `app/command_handler.py` — `RedisCommandHandler.handle_set` / `handle_get`
  / `handle_rpush` / `handle_lpush` / `handle_lrange` / `handle_wait`;
* `app/client_handler.py`  — the per-session dispatch loop (exception
  behaviour only);
* `app/replication.py` — `Replication.wait_for_acks` and its ack
  bookkeeping (`handle_replica_ack`, `read_replica_responses`);
* `app/server.py`    — `RedisServer.handle_master_propagation`, the
  replica-side consumer of the master stream.

Python strings are modelled as `String`, the millisecond wall clock as
`Int`, the cache dict as an association list with at most one binding per
key, and Python exceptions as `Except String`.  Socket writes become
explicit effect lists; real time in `wait_for_acks` becomes a fuel/step
count where one loop iteration stands for the 1 ms poll-sleep of the
source, so `timeout_ms` bounds the number of iterations.
-/

/-- Model of Python `int(s)`: an optional sign followed by decimal digits
(whitespace and underscore forms are not used by this server and are not
modelled).  `none` models the `ValueError` raise. -/
def digitsToNat (s : List Char) : Nat :=
  s.foldl (fun acc c => acc * 10 + (c.toNat - 48)) 0

/-- Parse result of Python `int(s)` on the argument strings the server
passes to it. -/
def pyInt? (s : String) : Option Int :=
  match s.data with
  | [] => none
  | '-' :: ds =>
    if ds ≠ [] ∧ ds.all (fun c => c.isDigit) then some (-(digitsToNat ds : Int)) else none
  | '+' :: ds =>
    if ds ≠ [] ∧ ds.all (fun c => c.isDigit) then some ((digitsToNat ds : Int)) else none
  | ds =>
    if ds ≠ [] ∧ ds.all (fun c => c.isDigit) then some ((digitsToNat ds : Int)) else none

/-- Python `str.upper()` on the ASCII command words this server
compares. -/
def pyUpper (s : String) : String := ⟨s.data.map Char.toUpper⟩

/-- Python `str.lower()` on the ASCII command words this server
compares. -/
def pyLower (s : String) : String := ⟨s.data.map Char.toLower⟩

/-- The protocol line terminator, `constants.CRLF`. -/
def CRLF : String := "\r\n"

/-- `RESPProtocol.encode_simple_string`. -/
def encode_simple_string (m : String) : String := "+" ++ m ++ CRLF

/-- `RESPProtocol.encode_error`: a single `-ERR <message>` frame. -/
def encode_error (m : String) : String := "-ERR " ++ m ++ CRLF

/-- `RESPProtocol.encode_bulk_string`; `none` is the null bulk string. -/
def encode_bulk_string : Option String → String
  | none => "$-1" ++ CRLF
  | some v => "$" ++ toString v.length ++ CRLF ++ v ++ CRLF

/-- An integer reply `:<n>`, as built inline by the command handlers. -/
def encode_integer (n : Int) : String := ":" ++ toString n ++ CRLF

/-- `RESPProtocol.encode_array`: an array of bulk strings. -/
def encode_array (items : List String) : String :=
  if items = [] then "*0" ++ CRLF
  else
    "*" ++ toString items.length ++ CRLF ++
      String.join (items.map (fun it => "$" ++ toString it.length ++ CRLF ++ it ++ CRLF))

/-- A value held in `Storage._cache`: the Python code stores either a
string or a list of strings. -/
inductive PyVal where
  | str (s : String)
  | list (xs : List String)
deriving DecidableEq, Repr

/-- The `Storage._cache` dict: key to `(value, expiry)` where expiry is an
absolute wall-clock instant in milliseconds (or `none`).  At most one
binding per key, insertion-ordered like a Python dict. -/
abbrev Storage := List (String × PyVal × Option Int)

/-- Dict lookup `self._cache[key]` / `key in self._cache`. -/
def Storage.find? : Storage → String → Option (PyVal × Option Int)
  | [], _ => none
  | p :: rest, k => if p.1 = k then some p.2 else Storage.find? rest k

/-- Dict assignment `self._cache[key] = (value, expiry)`: replaces the
existing binding in place or appends a new one. -/
def Storage.setRaw : Storage → String → PyVal → Option Int → Storage
  | [], k, v, e => [(k, v, e)]
  | p :: rest, k, v, e =>
    if p.1 = k then (k, v, e) :: rest else p :: Storage.setRaw rest k v e

/-- Dict deletion `del self._cache[key]`. -/
def Storage.del : Storage → String → Storage
  | [], _ => []
  | p :: rest, k => if p.1 = k then rest else p :: Storage.del rest k

/-- `Storage.set`: overwrite, kind becomes string. -/
def Storage.set (st : Storage) (k v : String) (e : Option Int) : Storage :=
  Storage.setRaw st k (PyVal.str v) e

/-- `Storage.get` at wall time `now` (ms).  Returns the value if present
and not expired; a key whose expiry instant is strictly in the past is
deleted as a side effect and reported missing.  The second component is
the cache after the call. -/
def Storage.get (st : Storage) (k : String) (now : Int) : Option PyVal × Storage :=
  match Storage.find? st k with
  | none => (none, st)
  | some (v, none) => (some v, st)
  | some (v, some exp) => if now > exp then (none, Storage.del st k) else (some v, st)

/-- `Storage.keys`: all keys for pattern `*`, empty for anything else. -/
def Storage.keys (st : Storage) (pattern : String) : List String :=
  if pattern = "*" then st.map (fun p => p.1) else []

/-- `Storage.rpush`: append values, creating the list if absent and
coercing a string value into a one-element list first; returns the new
length together with the updated cache. -/
def Storage.rpush (st : Storage) (k : String) (values : List String) : Nat × Storage :=
  let cur : List String × Option Int :=
    match Storage.find? st k with
    | some (PyVal.list xs, e) => (xs, e)
    | some (PyVal.str s, e) => ([s], e)
    | none => ([], none)
  let newList := cur.1 ++ values
  (newList.length, Storage.setRaw st k (PyVal.list newList) cur.2)

/-- `Storage.lpush`: prepend `list(reversed(values))`, with the same
create-if-absent and string-coercion behaviour as `rpush`. -/
def Storage.lpush (st : Storage) (k : String) (values : List String) : Nat × Storage :=
  let cur : List String × Option Int :=
    match Storage.find? st k with
    | some (PyVal.list xs, e) => (xs, e)
    | some (PyVal.str s, e) => ([s], e)
    | none => ([], none)
  let newList := values.reverse ++ cur.1
  (newList.length, Storage.setRaw st k (PyVal.list newList) cur.2)

/-- `Storage.llen`: list length, `0` for missing or non-list keys. -/
def Storage.llen (st : Storage) (k : String) : Nat :=
  match Storage.find? st k with
  | some (PyVal.list xs, _) => xs.length
  | _ => 0

/-- The index arithmetic of `Storage.lrange` on the fetched list: Python
`max(0, …)` handling of negative indices, the `min(stop, len-1)` clamp,
the emptiness guard, and the inclusive `value[start:stop+1]` slice. -/
def lrangeAux (xs : List String) (start stop_ : Int) : List String :=
  let n : Int := xs.length
  let s := if start < 0 then max 0 (n + start) else start
  let e0 := if stop_ < 0 then max 0 (n + stop_) else stop_
  let e := min e0 (n - 1)
  if s > e ∨ s ≥ n then []
  else (xs.drop s.toNat).take (e + 1 - s).toNat

/-- `Storage.lrange`: empty for a missing or non-list key, otherwise the
clamped inclusive slice of the stored list. -/
def Storage.lrange (st : Storage) (k : String) (start stop_ : Int) : List String :=
  match Storage.find? st k with
  | none => []
  | some (PyVal.str _, _) => []
  | some (PyVal.list xs, _) => lrangeAux xs start stop_

/-- The `for i in range(pop_count): elems += [value.pop(0)]` loop of
`Storage.lpop`: popping from an exhausted list raises `IndexError`. -/
def popN : List String → Nat → Except String (List String × List String)
  | rest, 0 => Except.ok ([], rest)
  | [], _ + 1 => Except.error "IndexError"
  | x :: rest, n + 1 =>
    match popN rest n with
    | Except.ok (popped, remaining) => Except.ok (x :: popped, remaining)
    | Except.error e => Except.error e

/-- `Storage.lpop`: `none` for a missing or non-list key, otherwise pop
`pop_count` elements from the head; the unchecked loop raises
`IndexError` when the list is too short. -/
def Storage.lpop (st : Storage) (k : String) (popCount : Nat) :
    Except String (Option (List String) × Storage) :=
  match Storage.find? st k with
  | none => Except.ok (none, st)
  | some (PyVal.str _, _) => Except.ok (none, st)
  | some (PyVal.list xs, e) =>
    match popN xs popCount with
    | Except.error err => Except.error err
    | Except.ok (popped, remaining) =>
      Except.ok (some popped, Storage.setRaw st k (PyVal.list remaining) e)

/-- A sequence of `rpush` calls on one key (the storage state after only
`RPUSH`es). -/
def rpushMany (st : Storage) (k : String) (vss : List (List String)) : Storage :=
  vss.foldl (fun s vs => (Storage.rpush s k vs).2) st

/-- A side effect of a command handler: a write to the client socket
(`self.connection.sendall`) or a hand-off to
`Replication.propagate_to_replicas`. -/
inductive Effect where
  | send (data : String)
  | propagate (payload : String)
deriving DecidableEq, Repr

/-- Whether an effect is a hand-off to the replication component. -/
def Effect.isPropagate : Effect → Bool
  | Effect.propagate _ => true
  | Effect.send _ => false

/-- The canonical encoded command array built inline by `handle_set` for
propagation: a 3-element array `SET key value`. -/
def set_propagation_payload (key value : String) : String :=
  "*3" ++ CRLF ++ "$3" ++ CRLF ++ "SET" ++ CRLF ++
    "$" ++ toString key.length ++ CRLF ++ key ++ CRLF ++
    "$" ++ toString value.length ++ CRLF ++ value ++ CRLF

/-- `RedisCommandHandler.handle_set` at wall time `now` (ms): arity check,
optional `PX` expiry with a caught `ValueError`, store write, `+OK`
reply, then propagation of the encoded `SET key value` array.  Effects
are listed in the order the socket writes and the propagation call
happen. -/
def handle_set : List String → Int → Storage → Storage × List Effect
  | _cmd :: key :: value :: rest, now, st =>
    let pxRes : Option (Option Int) :=
      match rest with
      | px :: ms :: _ =>
        if pyUpper px = "PX" then
          match pyInt? ms with
          | some pxMs => some (some (now + pxMs))
          | none => none
        else some none
      | _ => some none
    match pxRes with
    | none => (st, [Effect.send (encode_error "value is not an integer or out of range")])
    | some expiry =>
      (Storage.set st key value expiry,
       [Effect.send (encode_simple_string "OK"),
        Effect.propagate (set_propagation_payload key value)])
  | _, _, st => (st, [Effect.send (encode_error "wrong number of arguments for SET command")])

/-- `RedisCommandHandler.handle_get`. -/
def handle_get : List String → Int → Storage → Storage × List Effect
  | _cmd :: key :: _, now, st =>
    let r := Storage.get st key now
    let asStr : Option String := match r.1 with
      | some (PyVal.str s) => some s
      | some (PyVal.list _) => none
      | none => none
    (r.2, [Effect.send (encode_bulk_string asStr)])
  | _, _, st => (st, [Effect.send (encode_error "wrong number of arguments for GET command")])

/-- `RedisCommandHandler.handle_rpush`: arity check, `Storage.rpush`, and
an integer reply with the new length.  No propagation call occurs in the
source. -/
def handle_rpush : List String → Storage → Storage × List Effect
  | _cmd :: key :: v :: vs, st =>
    let r := Storage.rpush st key (v :: vs)
    (r.2, [Effect.send (encode_integer (r.1 : Int))])
  | _, st => (st, [Effect.send (encode_error "wrong number of arguments for RPUSH command")])

/-- `RedisCommandHandler.handle_lpush`: arity check, `Storage.lpush`, and
an integer reply with the new length.  No propagation call occurs in the
source. -/
def handle_lpush : List String → Storage → Storage × List Effect
  | _cmd :: key :: v :: vs, st =>
    let r := Storage.lpush st key (v :: vs)
    (r.2, [Effect.send (encode_integer (r.1 : Int))])
  | _, st => (st, [Effect.send (encode_error "wrong number of arguments for LPUSH command")])

/-- `RedisCommandHandler.handle_lrange`: the `int(elems[2])` and
`int(elems[3])` conversions are not wrapped in `try`, so a non-integer
argument raises `ValueError` out of the handler. -/
def handle_lrange : List String → Storage → Except String (List Effect)
  | _cmd :: key :: a :: b :: _, st =>
    match pyInt? a with
    | none => Except.error "ValueError"
    | some start =>
      match pyInt? b with
      | none => Except.error "ValueError"
      | some stop_ =>
        Except.ok [Effect.send (encode_array (Storage.lrange st key start stop_))]
  | _, _ => Except.ok [Effect.send (encode_error "wrong number of arguments for LRANGE command")]

/-- One dispatch step of `ClientHandler.handle`: a handler that returns
normally has its frames written and the session loop continues (the
connection stays open, second component `true`); an uncaught exception is
swallowed by the generic `except`, the loop breaks, and `finally` closes
the connection with no frame sent. -/
def session_step : Except String (List Effect) → List Effect × Bool
  | Except.ok effs => (effs, true)
  | Except.error _ => ([], false)

/-- Master-side replication state of `Replication`: role, the ordered
replica connections (as abstract ids), the `write_sequence` counter and
the `pending_acks` dict from sequence to the set of replicas that have
not yet acknowledged it. -/
structure Replication where
  role : String
  replica_connections : List Nat
  write_sequence : Nat
  pending_acks : List (Nat × List Nat)
deriving DecidableEq, Repr

/-- `self.pending_acks[target]` as a set, `[]` when the key is absent. -/
def pendingFor : List (Nat × List Nat) → Nat → List Nat
  | [], _ => []
  | p :: rest, t => if p.1 = t then p.2 else pendingFor rest t

/-- `Replication.handle_replica_ack`: discard the acknowledging replica
from every pending set and delete sets that become empty. -/
def handle_replica_ack : List (Nat × List Nat) → Nat → List (Nat × List Nat)
  | [], _ => []
  | p :: rest, r =>
    if r ∈ p.2 then
      if p.2.filter (fun x => decide (¬x = r)) = [] then handle_replica_ack rest r
      else (p.1, p.2.filter (fun x => decide (¬x = r))) :: handle_replica_ack rest r
    else p :: handle_replica_ack rest r

/-- `Replication.read_replica_responses`: parse the `REPLCONF ACK`
frames that arrived on the replica sockets (here: the list `rs` of
replicas whose ACK is read at this poll) and apply each through
`handle_replica_ack`. -/
def read_replica_responses (pending : List (Nat × List Nat)) (rs : List Nat) :
    List (Nat × List Nat) :=
  rs.foldl handle_replica_ack pending

/-- The acked-count computation of `wait_for_acks`:
`len(replicas) - len(pending_acks[target])`, or `len(replicas)` when the
target sequence is no longer pending. -/
def countAcked (replicasLen : Nat) (pending : List (Nat × List Nat)) (target : Nat) : Int :=
  (replicasLen : Int) - ((pendingFor pending target).length : Int)

/-- Result of `wait_for_acks`: the returned count, the final
`pending_acks`, and the number of 1 ms poll iterations performed. -/
structure WaitResult where
  count : Int
  pending : List (Nat × List Nat)
  steps : Nat
deriving DecidableEq, Repr

/-- The `while time.time() - start_time < timeout_seconds` poll loop of
`wait_for_acks`.  Each iteration reads the replica responses that arrived
(`acks used`), recomputes the acked count for the target sequence, and
returns as soon as it reaches `numReplicas`; the fuel is the remaining
milliseconds, and the timeout path performs one final read before
returning the best-effort count. -/
def waitLoop (replicasLen : Nat) (numReplicas : Int) (target : Nat) (acks : Nat → List Nat) :
    Nat → Nat → List (Nat × List Nat) → WaitResult
  | 0, used, pending =>
    let p2 := read_replica_responses pending (acks used)
    ⟨countAcked replicasLen p2 target, p2, used⟩
  | fuel + 1, used, pending =>
    let p2 := read_replica_responses pending (acks used)
    let c := countAcked replicasLen p2 target
    if numReplicas ≤ c then ⟨c, p2, used + 1⟩
    else waitLoop replicasLen numReplicas target acks fuel (used + 1) p2

/-- `Replication.wait_for_acks`: `0` off-master or with no replicas, the
current replica count when nothing has been propagated yet
(`write_sequence == 0`), and otherwise the bounded poll loop against
`target = write_sequence`.  `acks` abstracts which replicas' ACK frames
are read at each poll. -/
def wait_for_acks (repl : Replication) (numReplicas : Int) (timeoutMs : Nat)
    (acks : Nat → List Nat) : WaitResult :=
  if repl.role = "master" then
    if repl.replica_connections = [] then ⟨0, repl.pending_acks, 0⟩
    else if repl.write_sequence = 0 then
      ⟨(repl.replica_connections.length : Int), repl.pending_acks, 0⟩
    else
      waitLoop repl.replica_connections.length numReplicas repl.write_sequence acks
        timeoutMs 0 repl.pending_acks
  else ⟨0, repl.pending_acks, 0⟩

/-- `RedisCommandHandler.handle_wait`: arity check, integer parsing with
the caught `ValueError`, then `wait_for_acks` and an integer reply. -/
def handle_wait (elems : List String) (repl : Replication) (acks : Nat → List Nat) :
    List Effect :=
  match elems with
  | _cmd :: nstr :: tstr :: _ =>
    match pyInt? nstr, pyInt? tstr with
    | some n, some t =>
      [Effect.send (encode_integer (wait_for_acks repl n t.toNat acks).count)]
    | _, _ => [Effect.send (encode_error "value is not an integer or out of range")]
  | _ => [Effect.send (encode_error "wrong number of arguments for WAIT command")]

/-- Replica-side state used by `RedisServer.handle_master_propagation`:
the replication offset (bytes consumed since handshake), the
`first_getack_sent` flag and the local store. -/
structure ReplicaState where
  replication_offset : Nat
  first_getack_sent : Bool
  storage : Storage
deriving DecidableEq, Repr

/-- A complete frame extracted from the master stream by
`extract_complete_resp_message`: a command array (with the decoded bulk
elements and the frame's byte length) or one of the silently consumed
kinds. -/
inductive MasterMsg where
  | array (elems : List String) (byteLen : Nat)
  | bulk (byteLen : Nat)
  | simple (text : String)
deriving DecidableEq, Repr

/-- The `REPLCONF ACK <offset>` frame built inline by the replica. -/
def ackResponse (offset : Nat) : String :=
  "*3" ++ CRLF ++ "$8" ++ CRLF ++ "REPLCONF" ++ CRLF ++ "$3" ++ CRLF ++ "ACK" ++ CRLF ++
    "$" ++ toString (toString offset).length ++ CRLF ++ toString offset ++ CRLF

/-- The command-array dispatch inside `handle_master_propagation`: apply
a propagated `SET` to the store (no reply), answer `REPLCONF GETACK`
(with offset `0` the first time, the pre-frame offset afterwards), and
consume every other command silently.  Returns the new store, the new
`first_getack_sent` flag, and the frames sent back to the master. -/
def arrayEffects (elems : List String) (st : ReplicaState) : Storage × Bool × List String :=
  match elems with
  | cmd :: rest =>
    if pyLower cmd = "set" then
      match rest with
      | key :: value :: _ => (Storage.set st.storage key value none, st.first_getack_sent, [])
      | _ => (st.storage, st.first_getack_sent, [])
    else if pyLower cmd = "replconf" then
      match rest with
      | sub :: _ =>
        if pyUpper sub = "GETACK" then
          if st.first_getack_sent then
            (st.storage, st.first_getack_sent, [ackResponse st.replication_offset])
          else (st.storage, true, [ackResponse 0])
        else (st.storage, st.first_getack_sent, [])
      | [] => (st.storage, st.first_getack_sent, [])
    else (st.storage, st.first_getack_sent, [])
  | [] => (st.storage, st.first_getack_sent, [])

/-- One complete frame consumed by `RedisServer.handle_master_propagation`:
a command array is dispatched through `arrayEffects` and then the frame's
byte length is added to `replication_offset`; bulk (RDB) and
simple/error/integer frames are consumed without touching any state. -/
def handle_propagated (msg : MasterMsg) (st : ReplicaState) : ReplicaState × List String :=
  match msg with
  | MasterMsg.array elems byteLen =>
    let r := arrayEffects elems st
    (⟨st.replication_offset + byteLen, r.2.1, r.1⟩, r.2.2)
  | MasterMsg.bulk _ => (st, [])
  | MasterMsg.simple _ => (st, [])

/-- A concrete ack schedule for exercising `wait_for_acks`: replica `2`
answers at the second poll, nobody else answers. -/
def waitAcksExample (i : Nat) : List Nat := if i = 1 then [2] else []

theorem find?_setRaw (st : Storage) (k : String) (v : PyVal) (e : Option Int) :
    Storage.find? (Storage.setRaw st k v e) k = some (v, e) := by
  induction st with
  | nil => simp [Storage.setRaw, Storage.find?]
  | cons p rest ih =>
    by_cases h : p.1 = k
    · simp [Storage.setRaw, Storage.find?, h]
    · simp [Storage.setRaw, Storage.find?, h, ih]

theorem find?_some_mem {st : Storage} {k : String} {pv : PyVal × Option Int}
    (h : Storage.find? st k = some pv) : k ∈ st.map Prod.fst := by
  induction st with
  | nil => simp [Storage.find?] at h
  | cons p rest ih =>
    by_cases hp : p.1 = k
    · simp [hp]
    · simp [Storage.find?, hp] at h
      simp [ih h]

theorem not_mem_map_fst_del {st : Storage} {k : String}
    (hnd : (st.map Prod.fst).Nodup) : k ∉ (Storage.del st k).map Prod.fst := by
  induction st with
  | nil => simp [Storage.del]
  | cons p rest ih =>
    simp only [List.map_cons, List.nodup_cons] at hnd
    by_cases hp : p.1 = k
    · simp only [Storage.del, hp, if_pos rfl]
      rw [← hp]
      exact hnd.1
    · simp only [Storage.del, if_neg hp, List.map_cons, List.mem_cons, not_or]
      exact ⟨fun h1 => hp h1.symm, ih hnd.2⟩

/-- C5: after `SET k v` with no expiry, `GET k` returns `v` at every wall
time and leaves the store untouched; after `SET k v PX m` issued at time
`t`, a `GET` strictly before `t+m` returns `v` and a `GET` strictly after
`t+m` returns the null value and deletes the key from the store. -/
theorem set_get_expiry_spec (st : Storage) (k v : String) (t m d : Int) (hd : 0 < d) :
    (∀ now : Int,
      Storage.get (Storage.set st k v none) k now =
        (some (PyVal.str v), Storage.set st k v none))
    ∧ Storage.get (Storage.set st k v (some (t + m))) k (t + m - d) =
        (some (PyVal.str v), Storage.set st k v (some (t + m)))
    ∧ Storage.get (Storage.set st k v (some (t + m))) k (t + m + d) =
        (none, Storage.del (Storage.set st k v (some (t + m))) k) := by
  refine ⟨fun now => ?_, ?_, ?_⟩
  · simp [Storage.get, Storage.set, find?_setRaw]
  · have hle : ¬ t + m - d > t + m := by omega
    simp [Storage.get, Storage.set, find?_setRaw, hle]
  · have hgt : t + m + d > t + m := by omega
    simp [Storage.get, Storage.set, find?_setRaw, hgt]

/-- Witness for `set_get_expiry_spec` at a concrete key, value and expiry. -/
theorem set_get_expiry_witness :
    Storage.get (Storage.set [] "k" "v" none) "k" 5 =
      (some (PyVal.str "v"), Storage.set [] "k" "v" none)
    ∧ Storage.get (Storage.set [] "k" "v" (some (0 + 100))) "k" (0 + 100 - 1) =
        (some (PyVal.str "v"), Storage.set [] "k" "v" (some (0 + 100)))
    ∧ Storage.get (Storage.set [] "k" "v" (some (0 + 100))) "k" (0 + 100 + 1) =
        (none, Storage.del (Storage.set [] "k" "v" (some (0 + 100))) "k") := by
  have h := set_get_expiry_spec [] "k" "v" 0 100 1 (by norm_num)
  exact ⟨h.1 5, h.2.1, h.2.2⟩

/-- C10: `KEYS *` lists exactly the keys currently bound in the cache map,
with no expiry filtering: a key whose expiry instant lies in the past is
still reported until some `GET` touches it, and such a `GET` returns the
null value and removes the key, after which `KEYS *` no longer reports
it. -/
theorem keys_includes_expired_spec (st : Storage) (k : String) (v : PyVal) (e now : Int)
    (hk : Storage.find? st k = some (v, some e)) (hexp : e < now)
    (hnd : (st.map Prod.fst).Nodup) :
    (∀ k2, k2 ∈ Storage.keys st "*" ↔ k2 ∈ st.map Prod.fst)
    ∧ k ∈ Storage.keys st "*"
    ∧ (Storage.get st k now).1 = none
    ∧ k ∉ Storage.keys (Storage.get st k now).2 "*" := by
  have hmem : k ∈ st.map Prod.fst := find?_some_mem hk
  have hgt : now > e := hexp
  refine ⟨fun k2 => ?_, ?_, ?_, ?_⟩
  · simp [Storage.keys]
  · simpa [Storage.keys] using hmem
  · simp [Storage.get, hk, hgt]
  · simp only [Storage.get, hk, if_pos hgt]
    simpa [Storage.keys] using not_mem_map_fst_del hnd

/-- Witness for `keys_includes_expired_spec` on a two-key store with one
already-expired key. -/
theorem keys_includes_expired_witness :
    ("a" ∈ Storage.keys [("a", PyVal.str "x", some 10), ("b", PyVal.str "y", none)] "*")
    ∧ (Storage.get [("a", PyVal.str "x", some 10), ("b", PyVal.str "y", none)] "a" 50).1 = none
    ∧ "a" ∉ Storage.keys
        (Storage.get [("a", PyVal.str "x", some 10), ("b", PyVal.str "y", none)] "a" 50).2 "*" := by
  have h := keys_includes_expired_spec
    [("a", PyVal.str "x", some 10), ("b", PyVal.str "y", none)]
    "a" (PyVal.str "x") 10 50 (by rfl) (by norm_num) (by decide)
  exact ⟨h.2.1, h.2.2.1, h.2.2.2⟩

/-- C8: `rpush`/`lpush` create the list when the key is absent, coerce an
existing string value into a one-element list holding the prior value
before applying the push, extend an existing list, and in every case
return the length of the stored list after the push. -/
theorem push_create_coerce_spec (st : Storage) (k s0 : String) (e : Option Int)
    (xs vs : List String) :
    (Storage.find? st k = none →
      (Storage.rpush st k vs).1 = vs.length
      ∧ Storage.find? (Storage.rpush st k vs).2 k = some (PyVal.list vs, none)
      ∧ (Storage.lpush st k vs).1 = vs.length
      ∧ Storage.find? (Storage.lpush st k vs).2 k = some (PyVal.list vs.reverse, none))
    ∧ (Storage.find? st k = some (PyVal.str s0, e) →
      (Storage.rpush st k vs).1 = vs.length + 1
      ∧ Storage.find? (Storage.rpush st k vs).2 k = some (PyVal.list (s0 :: vs), e)
      ∧ (Storage.lpush st k vs).1 = vs.length + 1
      ∧ Storage.find? (Storage.lpush st k vs).2 k = some (PyVal.list (vs.reverse ++ [s0]), e))
    ∧ (Storage.find? st k = some (PyVal.list xs, e) →
      (Storage.rpush st k vs).1 = xs.length + vs.length
      ∧ Storage.find? (Storage.rpush st k vs).2 k = some (PyVal.list (xs ++ vs), e)
      ∧ (Storage.lpush st k vs).1 = vs.length + xs.length
      ∧ Storage.find? (Storage.lpush st k vs).2 k = some (PyVal.list (vs.reverse ++ xs), e)) := by
  refine ⟨fun h => ?_, fun h => ?_, fun h => ?_⟩
  · refine ⟨?_, ?_, ?_, ?_⟩ <;> simp [Storage.rpush, Storage.lpush, h, find?_setRaw]
  · refine ⟨?_, ?_, ?_, ?_⟩ <;> simp [Storage.rpush, Storage.lpush, h, find?_setRaw]
  · refine ⟨?_, ?_, ?_, ?_⟩ <;> simp [Storage.rpush, Storage.lpush, h, find?_setRaw]

/-- Witness for `push_create_coerce_spec`: string coercion on a concrete
store and creation on an absent key. -/
theorem push_create_coerce_witness :
    (Storage.rpush [("k", PyVal.str "old", none)] "k" ["a", "b"]).1 = 3
    ∧ Storage.find? (Storage.rpush [("k", PyVal.str "old", none)] "k" ["a", "b"]).2 "k" =
        some (PyVal.list ["old", "a", "b"], none)
    ∧ (Storage.lpush [("k", PyVal.str "old", none)] "k" ["a", "b"]).1 = 3
    ∧ Storage.find? (Storage.lpush [("k", PyVal.str "old", none)] "k" ["a", "b"]).2 "k" =
        some (PyVal.list ["b", "a", "old"], none)
    ∧ (Storage.rpush [] "q" ["a"]).1 = 1
    ∧ Storage.find? (Storage.rpush [] "q" ["a"]).2 "q" = some (PyVal.list ["a"], none) := by
  have h1 := push_create_coerce_spec [("k", PyVal.str "old", none)] "k" "old" none [] ["a", "b"]
  have h2 := push_create_coerce_spec [] "q" "" none [] ["a"]
  have ha := h1.2.1 (by rfl)
  have hb := h2.1 (by rfl)
  exact ⟨ha.1, ha.2.1, ha.2.2.1, ha.2.2.2, hb.1, hb.2.1⟩

/-- C7: evaluation of `Storage.lpop` at the failing input.  On a one
element list a pop count of `2` raises `IndexError` (the unchecked
`value.pop(0)` loop) instead of returning the available element; the
missing-key, non-list and long-enough cases behave as documented. -/
theorem lpop_short_list_raises :
    Storage.lpop [("k", PyVal.list ["a"], none)] "k" 2 = Except.error "IndexError"
    ∧ Storage.lpop [] "k" 2 = Except.ok (none, [])
    ∧ Storage.lpop [("k", PyVal.str "s", none)] "k" 2 =
        Except.ok (none, [("k", PyVal.str "s", none)])
    ∧ Storage.lpop [("k", PyVal.list ["a", "b", "c"], none)] "k" 2 =
        Except.ok (some ["a", "b"], [("k", PyVal.list ["c"], none)]) :=
  ⟨rfl, rfl, rfl, rfl⟩

theorem lrangeAux_full (xs : List String) : lrangeAux xs 0 (-1) = xs := by
  simp only [lrangeAux]
  by_cases hx : xs.length = 0
  · have hxe : xs = [] := List.length_eq_zero.mp hx
    subst hxe
    decide
  · rw [if_neg (by omega : ¬((0:Int) < 0)), if_pos (by omega : (-1:Int) < 0)]
    rw [if_neg (by omega :
      ¬((0:Int) > min (max 0 ((xs.length : Int) + -1)) ((xs.length : Int) - 1)
        ∨ (0:Int) ≥ (xs.length : Int)))]
    have ht : (min (max 0 ((xs.length : Int) + -1)) ((xs.length : Int) - 1) + 1 - 0).toNat =
        xs.length := by omega
    have hz : ((0:Int)).toNat = 0 := rfl
    rw [ht, hz, List.drop_zero, List.take_length]

theorem lrangeAux_slice (xs : List String) (i j : Nat) (hij : i ≤ j) (hj : j < xs.length) :
    lrangeAux xs (i : Int) (j : Int) = (xs.drop i).take (j + 1 - i) := by
  simp only [lrangeAux]
  split_ifs with h1 h2 h3 h4 h5 h6
  all_goals try (exfalso; omega)
  have ha : ((i : Int)).toNat = i := by omega
  have hb : (min (j : Int) ((xs.length : Int) - 1) + 1 - (i : Int)).toNat = j + 1 - i := by
    omega
  rw [ha, hb]

theorem lrangeAux_neg_tail (xs : List String) (i : Nat) (h1 : 1 ≤ i) (h2 : i ≤ xs.length) :
    lrangeAux xs (-(i : Int)) (-1) = xs.drop (xs.length - i) := by
  simp only [lrangeAux]
  split_ifs with ha hb hc hd he hf
  all_goals try (exfalso; omega)
  have hs : (max 0 ((xs.length : Int) + -(i : Int))).toNat = xs.length - i := by omega
  have ht : (min (max 0 ((xs.length : Int) + -1)) ((xs.length : Int) - 1) + 1 -
      max 0 ((xs.length : Int) + -(i : Int))).toNat = i := by omega
  rw [hs, ht]
  exact List.take_of_length_le (by rw [List.length_drop]; omega)

theorem lrangeAux_clamp_high (xs : List String) (i j : Nat) (hi : i < xs.length)
    (hj : xs.length ≤ j) : lrangeAux xs (i : Int) (j : Int) = xs.drop i := by
  simp only [lrangeAux]
  split_ifs with h1 h2 h3 h4 h5 h6
  all_goals try (exfalso; omega)
  have ha : ((i : Int)).toNat = i := by omega
  have hb : (min (j : Int) ((xs.length : Int) - 1) + 1 - (i : Int)).toNat = xs.length - i := by
    omega
  rw [ha, hb]
  exact List.take_of_length_le (by rw [List.length_drop])

theorem lrangeAux_empty_range (xs : List String) (i j : Nat) (hji : j < i) :
    lrangeAux xs (i : Int) (j : Int) = [] := by
  simp only [lrangeAux]
  split_ifs with h1 h2 h3 h4 h5 h6
  all_goals first | rfl | (exfalso; omega)

theorem lrangeAux_neg_clamp (xs : List String) (i : Nat) (hi : xs.length ≤ i) :
    lrangeAux xs (-(i : Int)) (-1) = xs := by
  simp only [lrangeAux]
  by_cases hx : xs.length = 0
  · have hxe : xs = [] := List.length_eq_zero.mp hx
    subst hxe
    split_ifs with h1 h2 h3 h4 h5 h6
    all_goals first | rfl | (exfalso; omega)
  · split_ifs with h1 h2 h3 h4 h5 h6
    all_goals try (exfalso; omega)
    have hs : (max 0 ((xs.length : Int) + -(i : Int))).toNat = 0 := by omega
    have ht : (min (max 0 ((xs.length : Int) + -1)) ((xs.length : Int) - 1) + 1 -
        max 0 ((xs.length : Int) + -(i : Int))).toNat = xs.length := by omega
    rw [hs, ht, List.drop_zero, List.take_length]

theorem find?_rpushMany {st : Storage} {k : String} {cur : List String} {e : Option Int}
    (h : Storage.find? st k = some (PyVal.list cur, e)) (vss : List (List String)) :
    Storage.find? (rpushMany st k vss) k = some (PyVal.list (cur ++ vss.flatten), e) := by
  induction vss generalizing st cur with
  | nil => simpa [rpushMany] using h
  | cons l rest ih =>
    have hstep : Storage.find? (Storage.rpush st k l).2 k = some (PyVal.list (cur ++ l), e) := by
      simp [Storage.rpush, h, find?_setRaw]
    have hr := ih hstep
    simpa [rpushMany, List.append_assoc] using hr

/-- C6: `LRANGE` is empty on a missing or non-list key; on a stored list
it is inclusive on both ends, counts negative indices from the tail
(`-1` is the last element), clamps out-of-bounds indices to the valid
bounds, and is empty when the requested range is empty; `LRANGE k 0 -1`
after only `RPUSH`es returns the whole list in insertion order. -/
theorem lrange_spec (st : Storage) (k sv : String) (xs : List String) (ex : Option Int)
    (vss : List (List String)) :
    (Storage.find? st k = none → ∀ a b : Int, Storage.lrange st k a b = [])
    ∧ (Storage.find? st k = some (PyVal.str sv, ex) →
        ∀ a b : Int, Storage.lrange st k a b = [])
    ∧ (Storage.find? st k = some (PyVal.list xs, ex) →
        Storage.lrange st k 0 (-1) = xs
        ∧ (∀ i j : Nat, i ≤ j → j < xs.length →
            Storage.lrange st k (i : Int) (j : Int) = (xs.drop i).take (j + 1 - i))
        ∧ (∀ i : Nat, 1 ≤ i → i ≤ xs.length →
            Storage.lrange st k (-(i : Int)) (-1) = xs.drop (xs.length - i))
        ∧ (∀ i j : Nat, i < xs.length → xs.length ≤ j →
            Storage.lrange st k (i : Int) (j : Int) = xs.drop i)
        ∧ (∀ i j : Nat, j < i → Storage.lrange st k (i : Int) (j : Int) = [])
        ∧ (∀ i : Nat, xs.length ≤ i → Storage.lrange st k (-(i : Int)) (-1) = xs))
    ∧ (Storage.find? st k = none →
        Storage.lrange (rpushMany st k vss) k 0 (-1) = vss.flatten) := by
  refine ⟨fun h a b => ?_, fun h a b => ?_, fun h => ?_, fun h => ?_⟩
  · simp [Storage.lrange, h]
  · simp [Storage.lrange, h]
  · refine ⟨?_, fun i j hij hj => ?_, fun i h1 h2 => ?_, fun i j hi hj => ?_,
      fun i j hji => ?_, fun i hi => ?_⟩
    · simp only [Storage.lrange, h]
      exact lrangeAux_full xs
    · simp only [Storage.lrange, h]
      exact lrangeAux_slice xs i j hij hj
    · simp only [Storage.lrange, h]
      exact lrangeAux_neg_tail xs i h1 h2
    · simp only [Storage.lrange, h]
      exact lrangeAux_clamp_high xs i j hi hj
    · simp only [Storage.lrange, h]
      exact lrangeAux_empty_range xs i j hji
    · simp only [Storage.lrange, h]
      exact lrangeAux_neg_clamp xs i hi
  · cases vss with
    | nil => simp [rpushMany, Storage.lrange, h]
    | cons l rest =>
      have hstep : Storage.find? (Storage.rpush st k l).2 k =
          some (PyVal.list l, none) := by
        simp [Storage.rpush, h, find?_setRaw]
      have hall := find?_rpushMany hstep rest
      have hfind : Storage.find? (rpushMany st k (l :: rest)) k =
          some (PyVal.list (l :: rest).flatten, none) := by
        simpa [rpushMany] using hall
      simp only [Storage.lrange, hfind]
      exact lrangeAux_full _

/-- Witness for `lrange_spec` on a concrete three-element list built by
`RPUSH`es. -/
theorem lrange_spec_witness :
    Storage.lrange [("l", PyVal.list ["a", "b", "c"], none)] "l" 0 (-1) = ["a", "b", "c"]
    ∧ Storage.lrange [("l", PyVal.list ["a", "b", "c"], none)] "l" 1 2 = ["b", "c"]
    ∧ Storage.lrange [("l", PyVal.list ["a", "b", "c"], none)] "l" (-2) (-1) = ["b", "c"]
    ∧ Storage.lrange [("l", PyVal.list ["a", "b", "c"], none)] "l" 1 99 = ["b", "c"]
    ∧ Storage.lrange [("l", PyVal.list ["a", "b", "c"], none)] "l" 2 1 = []
    ∧ Storage.lrange [("x", PyVal.str "s", none)] "x" 0 (-1) = []
    ∧ Storage.lrange (rpushMany [] "l" [["a"], ["b", "c"]]) "l" 0 (-1) = ["a", "b", "c"] := by
  have h1 := lrange_spec [("l", PyVal.list ["a", "b", "c"], none)] "l" "" ["a", "b", "c"]
    none []
  have h2 := lrange_spec [("x", PyVal.str "s", none)] "x" "s" [] none []
  have h3 := lrange_spec [] "l" "" [] none [["a"], ["b", "c"]]
  have hl := h1.2.2.1 (by rfl)
  refine ⟨hl.1, ?_, ?_, ?_, ?_, ?_, ?_⟩
  · simpa using hl.2.1 1 2 (by norm_num) (by norm_num)
  · simpa using hl.2.2.1 2 (by norm_num) (by norm_num)
  · simpa using hl.2.2.2.1 1 99 (by norm_num) (by norm_num)
  · simpa using hl.2.2.2.2.1 2 1 (by norm_num)
  · exact h2.2.1 (by rfl) 0 (-1)
  · simpa using h3.2.2.2 (by rfl)

/-- C1 (amended): on the master, only `SET` hands an encoded command
array to the replication component, and it does so after the client
reply: `handle_set` emits the `+OK` send followed by the propagation of
the 3-element `SET key value` array (any `PX` option is omitted from the
propagated frame).  `handle_rpush` and `handle_lpush` emit only their
integer reply and hand nothing to replication. -/
theorem master_write_propagation_spec (key value v : String) (vs : List String)
    (now m : Int) (st : Storage) :
    handle_set ["SET", key, value] now st =
      (Storage.set st key value none,
       [Effect.send (encode_simple_string "OK"),
        Effect.propagate (set_propagation_payload key value)])
    ∧ (∀ ms, pyInt? ms = some m →
        handle_set ["SET", key, value, "PX", ms] now st =
          (Storage.set st key value (some (now + m)),
           [Effect.send (encode_simple_string "OK"),
            Effect.propagate (set_propagation_payload key value)]))
    ∧ (handle_rpush ("RPUSH" :: key :: v :: vs) st).2 =
        [Effect.send (encode_integer ((Storage.rpush st key (v :: vs)).1 : Int))]
    ∧ (handle_rpush ("RPUSH" :: key :: v :: vs) st).2.filter Effect.isPropagate = []
    ∧ (handle_lpush ("LPUSH" :: key :: v :: vs) st).2 =
        [Effect.send (encode_integer ((Storage.lpush st key (v :: vs)).1 : Int))]
    ∧ (handle_lpush ("LPUSH" :: key :: v :: vs) st).2.filter Effect.isPropagate = [] := by
  refine ⟨rfl, fun ms hms => ?_, rfl, rfl, rfl, rfl⟩
  simp [handle_set, hms, show pyUpper "PX" = "PX" from rfl]

/-- Witness for `master_write_propagation_spec` at concrete commands,
including a `SET` with a valid `PX` argument. -/
theorem master_write_propagation_witness :
    handle_set ["SET", "k", "v"] 7 [] =
      (Storage.set [] "k" "v" none,
       [Effect.send (encode_simple_string "OK"),
        Effect.propagate (set_propagation_payload "k" "v")])
    ∧ handle_set ["SET", "k", "v", "PX", "100"] 7 [] =
        (Storage.set [] "k" "v" (some (7 + 100)),
         [Effect.send (encode_simple_string "OK"),
          Effect.propagate (set_propagation_payload "k" "v")])
    ∧ (handle_rpush ["RPUSH", "k", "a"] []).2.filter Effect.isPropagate = []
    ∧ (handle_lpush ["LPUSH", "k", "a"] []).2.filter Effect.isPropagate = [] := by
  have h := master_write_propagation_spec "k" "v" "a" [] 7 100 []
  exact ⟨h.1, h.2.1 "100" (by rfl), h.2.2.2.1, h.2.2.2.2.2⟩

/-- C1 counterexample: a concrete `RPUSH` (and `LPUSH`) on the master
hands nothing to the replication component — the effect list contains no
propagation — while the same store sees the write and the client gets the
integer reply; `SET` by contrast does propagate. -/
theorem rpush_lpush_no_propagation_counterexample :
    (handle_rpush ["RPUSH", "mylist", "a"] []).2 = [Effect.send ":1\r\n"]
    ∧ (handle_rpush ["RPUSH", "mylist", "a"] []).2.filter Effect.isPropagate = []
    ∧ (handle_lpush ["LPUSH", "mylist", "a"] []).2.filter Effect.isPropagate = []
    ∧ (handle_set ["SET", "k", "v"] 0 []).2.filter Effect.isPropagate =
        [Effect.propagate (set_propagation_payload "k" "v")] :=
  ⟨rfl, rfl, rfl, rfl⟩

/-- C2 (amended): for every command-array frame consumed from the master
stream the replica adds exactly the frame's byte length to its
replication offset; a `SET key value …` frame is applied to the store
with no reply; an `RPUSH` or `LPUSH` frame is consumed with *no* store
change and no reply. -/
theorem replica_stream_apply_spec (elems : List String) (key value : String)
    (rest : List String) (byteLen : Nat) (st : ReplicaState) :
    ((handle_propagated (MasterMsg.array elems byteLen) st).1.replication_offset =
        st.replication_offset + byteLen)
    ∧ (handle_propagated (MasterMsg.array ("SET" :: key :: value :: rest) byteLen) st =
        ({ st with storage := Storage.set st.storage key value none,
                   replication_offset := st.replication_offset + byteLen }, []))
    ∧ (∀ cmd, pyLower cmd = "rpush" ∨ pyLower cmd = "lpush" →
        handle_propagated (MasterMsg.array (cmd :: rest) byteLen) st =
          ({ st with replication_offset := st.replication_offset + byteLen }, [])) := by
  refine ⟨?_, ?_, fun cmd hcmd => ?_⟩
  · simp [handle_propagated]
  · simp [handle_propagated, arrayEffects, show pyLower "SET" = "set" from rfl]
  · have hset : ¬ pyLower cmd = "set" := by
      rcases hcmd with h | h <;> simp [h]
    have hrc : ¬ pyLower cmd = "replconf" := by
      rcases hcmd with h | h <;> simp [h]
    cases rest with
    | nil => simp [handle_propagated, arrayEffects, hset, hrc]
    | cons r rs => simp [handle_propagated, arrayEffects, hset, hrc]

/-- Witness for `replica_stream_apply_spec`: a concrete propagated `SET`
is applied silently and the offset grows by the frame length. -/
theorem replica_stream_apply_witness :
    handle_propagated (MasterMsg.array ["SET", "k", "v"] 25) ⟨10, true, []⟩ =
      (⟨35, true, [("k", PyVal.str "v", none)]⟩, [])
    ∧ handle_propagated (MasterMsg.array ["LPUSH", "k", "a"] 30) ⟨10, true, []⟩ =
        (⟨40, true, []⟩, []) := by
  have h := replica_stream_apply_spec ["SET", "k", "v"] "k" "v" [] 25 ⟨10, true, []⟩
  have h2 := replica_stream_apply_spec [] "" "" ["k", "a"] 30 ⟨10, true, []⟩
  exact ⟨h.2.1, h2.2.2 "LPUSH" (Or.inr rfl)⟩

/-- C2 counterexample: a concrete `RPUSH mylist a` frame arriving on the
master stream leaves the replica's store unchanged (empty), although
applying the command would have created the list; only the offset moves,
by the frame's byte length. -/
theorem replica_ignores_rpush_counterexample :
    handle_propagated
        (MasterMsg.array ["RPUSH", "mylist", "a"] (encode_array ["RPUSH", "mylist", "a"]).length)
        ⟨0, false, []⟩ =
      (⟨(encode_array ["RPUSH", "mylist", "a"]).length, false, []⟩, [])
    ∧ (Storage.rpush [] "mylist" ["a"]).2 = [("mylist", PyVal.list ["a"], none)] :=
  ⟨rfl, rfl⟩

/-- C4: a `REPLCONF GETACK` frame on the master stream is answered with
`REPLCONF ACK 0` the first time after the handshake regardless of the
offset already accumulated, and with the replication offset as it stood
immediately before this frame on every later occurrence; in both cases
the frame's own byte length is added to the offset only after the reply
is produced. -/
theorem replica_getack_spec (st : ReplicaState) (sub : String) (rest : List String)
    (byteLen : Nat) (hsub : pyUpper sub = "GETACK") :
    (st.first_getack_sent = false →
      handle_propagated (MasterMsg.array ("REPLCONF" :: sub :: rest) byteLen) st =
        ({ st with first_getack_sent := true,
                   replication_offset := st.replication_offset + byteLen },
         [ackResponse 0]))
    ∧ (st.first_getack_sent = true →
      handle_propagated (MasterMsg.array ("REPLCONF" :: sub :: rest) byteLen) st =
        ({ st with replication_offset := st.replication_offset + byteLen },
         [ackResponse st.replication_offset])) := by
  constructor
  · intro hf
    simp [handle_propagated, arrayEffects, hsub, hf,
      show pyLower "REPLCONF" = "replconf" from rfl,
      show ¬ pyLower "REPLCONF" = "set" from (by decide)]
  · intro hf
    simp [handle_propagated, arrayEffects, hsub, hf,
      show pyLower "REPLCONF" = "replconf" from rfl,
      show ¬ pyLower "REPLCONF" = "set" from (by decide)]

/-- Witness for `replica_getack_spec`: with 88 bytes already consumed the
first `GETACK` still answers `ACK 0`; once the flag is set the same state
answers `ACK 88`. -/
theorem replica_getack_witness :
    handle_propagated (MasterMsg.array ["REPLCONF", "GETACK", "*"] 37) ⟨88, false, []⟩ =
      (⟨125, true, []⟩, [ackResponse 0])
    ∧ handle_propagated (MasterMsg.array ["REPLCONF", "GETACK", "*"] 37) ⟨88, true, []⟩ =
        (⟨125, true, []⟩, [ackResponse 88]) := by
  have h1 := replica_getack_spec ⟨88, false, []⟩ "GETACK" ["*"] 37 (by rfl)
  have h2 := replica_getack_spec ⟨88, true, []⟩ "GETACK" ["*"] 37 (by rfl)
  exact ⟨h1.1 rfl, h2.2 rfl⟩

/-- C9: evaluation at the failing input.  A non-integer `LRANGE` bound
raises `ValueError` out of `handle_lrange`; the session loop catches it
with the generic handler, sends no frame at all and closes the connection
(`session_step … = ([], false)`).  The `WAIT` and `SET … PX` parsers by
contrast catch the `ValueError` themselves and reply with the single
`-ERR value is not an integer or out of range` frame on a connection that
stays open. -/
theorem lrange_non_integer_uncaught :
    handle_lrange ["LRANGE", "k", "abc", "1"] [] = Except.error "ValueError"
    ∧ session_step (handle_lrange ["LRANGE", "k", "abc", "1"] []) = ([], false)
    ∧ handle_wait ["WAIT", "abc", "100"] ⟨"master", [1], 1, [(1, [1])]⟩ (fun _ => []) =
        [Effect.send (encode_error "value is not an integer or out of range")]
    ∧ session_step (Except.ok (handle_wait ["WAIT", "abc", "100"]
          ⟨"master", [1], 1, [(1, [1])]⟩ (fun _ => []))) =
        ([Effect.send (encode_error "value is not an integer or out of range")], true)
    ∧ (handle_set ["SET", "k", "v", "PX", "abc"] 0 []).2 =
        [Effect.send (encode_error "value is not an integer or out of range")] :=
  ⟨rfl, rfl, rfl, rfl, rfl⟩

theorem pendingFor_not_mem {pending : List (Nat × List Nat)} {t : Nat}
    (h : t ∉ pending.map Prod.fst) : pendingFor pending t = [] := by
  induction pending with
  | nil => rfl
  | cons p rest ih =>
    simp only [List.map_cons, List.mem_cons, not_or] at h
    have hne : ¬p.1 = t := fun he => h.1 he.symm
    simp only [pendingFor, if_neg hne]
    exact ih h.2

theorem map_fst_ack_sublist (pending : List (Nat × List Nat)) (r : Nat) :
    ((handle_replica_ack pending r).map Prod.fst).Sublist (pending.map Prod.fst) := by
  induction pending with
  | nil => simp [handle_replica_ack]
  | cons p rest ih =>
    simp only [handle_replica_ack]
    split_ifs with h1 h2
    · simp only [List.map_cons]
      exact ih.cons p.1
    · simp only [List.map_cons]
      exact ih.cons₂ p.1
    · simp only [List.map_cons]
      exact ih.cons₂ p.1

theorem pendingFor_ack (pending : List (Nat × List Nat)) (r t : Nat)
    (hkeys : (pending.map Prod.fst).Nodup) :
    pendingFor (handle_replica_ack pending r) t =
      (pendingFor pending t).filter (fun x => decide (¬x = r)) := by
  induction pending with
  | nil => rfl
  | cons p rest ih =>
    rw [List.map_cons, List.nodup_cons] at hkeys
    obtain ⟨hpr, hkr⟩ := hkeys
    by_cases hpt : p.1 = t
    · subst hpt
      have hrestack : pendingFor (handle_replica_ack rest r) p.1 = [] := by
        apply pendingFor_not_mem
        intro hmem
        exact hpr ((map_fst_ack_sublist rest r).subset hmem)
      have hcons : pendingFor (p :: rest) p.1 = p.2 := by simp [pendingFor]
      simp only [handle_replica_ack]
      split_ifs with h1 h2
      · rw [hrestack, hcons]
        exact h2.symm
      · rw [hcons]
        simp [pendingFor]
      · have hcons2 : pendingFor (p :: handle_replica_ack rest r) p.1 = p.2 := by
          simp [pendingFor]
        rw [hcons, hcons2]
        symm
        refine List.filter_eq_self.mpr ?_
        intro a ha
        simp only [decide_eq_true_eq]
        exact fun he => h1 (he ▸ ha)
    · simp only [handle_replica_ack]
      split_ifs with h1 h2
      · rw [ih hkr]
        simp only [pendingFor, if_neg hpt]
      · simp only [pendingFor, if_neg hpt]
        exact ih hkr
      · simp only [pendingFor, if_neg hpt]
        exact ih hkr

theorem map_fst_reads_sublist (pending : List (Nat × List Nat)) (rs : List Nat) :
    ((read_replica_responses pending rs).map Prod.fst).Sublist (pending.map Prod.fst) := by
  induction rs generalizing pending with
  | nil => simp [read_replica_responses]
  | cons r rest ih =>
    simp only [read_replica_responses, List.foldl_cons]
    exact (ih (handle_replica_ack pending r)).trans (map_fst_ack_sublist pending r)

theorem map_fst_reads_nodup (pending : List (Nat × List Nat)) (rs : List Nat)
    (hkeys : (pending.map Prod.fst).Nodup) :
    ((read_replica_responses pending rs).map Prod.fst).Nodup :=
  hkeys.sublist (map_fst_reads_sublist pending rs)

theorem pendingFor_reads_sublist (pending : List (Nat × List Nat)) (rs : List Nat) (t : Nat)
    (hkeys : (pending.map Prod.fst).Nodup) :
    (pendingFor (read_replica_responses pending rs) t).Sublist (pendingFor pending t) := by
  induction rs generalizing pending with
  | nil => simp [read_replica_responses]
  | cons r rest ih =>
    simp only [read_replica_responses, List.foldl_cons]
    have h1 : ((handle_replica_ack pending r).map Prod.fst).Nodup :=
      hkeys.sublist (map_fst_ack_sublist pending r)
    have h2 := ih (handle_replica_ack pending r) h1
    refine h2.trans ?_
    rw [pendingFor_ack pending r t hkeys]
    exact List.filter_sublist _

theorem length_filter_not_mem (replicas : List Nat) :
    ∀ s : List Nat, s.Nodup → replicas.Nodup → (∀ x ∈ s, x ∈ replicas) →
      ((replicas.filter (fun x => decide (¬x ∈ s))).length : Int) =
        (replicas.length : Int) - (s.length : Int) := by
  induction replicas with
  | nil =>
    intro s _ _ hsub
    have hs0 : s = [] := by
      cases s with
      | nil => rfl
      | cons a u => exact absurd (hsub a (by simp)) (by simp)
    subst hs0
    simp
  | cons a l ih =>
    intro s hs hr hsub
    have hal : a ∉ l := (List.nodup_cons.mp hr).1
    have hl : l.Nodup := (List.nodup_cons.mp hr).2
    by_cases ha : a ∈ s
    · rw [List.filter_cons_of_neg (by simp [ha])]
      have hcong : l.filter (fun x => decide (¬x ∈ s)) =
          l.filter (fun x => decide (¬x ∈ s.erase a)) := by
        refine List.filter_congr ?_
        intro x hx
        have hxa : x ≠ a := fun hxa => hal (hxa ▸ hx)
        simp [List.mem_erase_of_ne hxa]
      have hsub2 : ∀ x ∈ s.erase a, x ∈ l := by
        intro x hx
        have hxs : x ∈ s := List.mem_of_mem_erase hx
        have hxa : x ≠ a := by
          intro he
          subst he
          exact hs.not_mem_erase hx
        have hm := hsub x hxs
        simp only [List.mem_cons] at hm
        rcases hm with h | h
        · exact absurd h hxa
        · exact h
      have hlen := List.length_erase_of_mem ha
      have hpos : 0 < s.length := List.length_pos.mpr (List.ne_nil_of_mem ha)
      have hrec := ih (s.erase a) (hs.erase a) hl hsub2
      rw [hcong] at *
      simp only [List.length_cons]
      omega
    · rw [List.filter_cons_of_pos (by simp [ha])]
      have hsub2 : ∀ x ∈ s, x ∈ l := by
        intro x hx
        have hm := hsub x hx
        simp only [List.mem_cons] at hm
        rcases hm with h | h
        · exact absurd hx (h ▸ ha)
        · exact h
      have hrec := ih s hs hl hsub2
      simp only [List.length_cons]
      omega

theorem waitLoop_steps_le (L : Nat) (n : Int) (tg : Nat) (acks : Nat → List Nat) :
    ∀ (fuel used : Nat) (pending : List (Nat × List Nat)),
      (waitLoop L n tg acks fuel used pending).steps ≤ used + fuel := by
  intro fuel
  induction fuel with
  | zero =>
    intro used pending
    simp [waitLoop]
  | succ f ih =>
    intro used pending
    simp only [waitLoop]
    split_ifs with h
    · simp
    · have := ih (used + 1) (read_replica_responses pending (acks used))
      omega

theorem waitLoop_invariant (L : Nat) (n : Int) (tg : Nat) (acks : Nat → List Nat) :
    ∀ (fuel used : Nat) (pending : List (Nat × List Nat)),
      (pending.map Prod.fst).Nodup →
      (waitLoop L n tg acks fuel used pending).count =
          countAcked L (waitLoop L n tg acks fuel used pending).pending tg
      ∧ (((waitLoop L n tg acks fuel used pending).pending.map Prod.fst).Nodup)
      ∧ (pendingFor (waitLoop L n tg acks fuel used pending).pending tg).Sublist
          (pendingFor pending tg) := by
  intro fuel
  induction fuel with
  | zero =>
    intro used pending hkeys
    exact ⟨rfl, map_fst_reads_nodup pending (acks used) hkeys,
      pendingFor_reads_sublist pending (acks used) tg hkeys⟩
  | succ f ih =>
    intro used pending hkeys
    simp only [waitLoop]
    split_ifs with h
    · exact ⟨rfl, map_fst_reads_nodup pending (acks used) hkeys,
        pendingFor_reads_sublist pending (acks used) tg hkeys⟩
    · have hk2 := map_fst_reads_nodup pending (acks used) hkeys
      have hrec := ih (used + 1) (read_replica_responses pending (acks used)) hk2
      exact ⟨hrec.1, hrec.2.1,
        hrec.2.2.trans (pendingFor_reads_sublist pending (acks used) tg hkeys)⟩

/-- C3: on a master, `wait_for_acks` returns the current replica count
immediately (zero poll iterations) when no write has been propagated yet
(`write_sequence == 0`); it returns `0` when no replicas are connected;
its poll loop never runs more than `timeout_ms` iterations (one per
millisecond of the source's poll-sleep); and otherwise the returned count
is exactly the number of connected replicas that are no longer pending
for the target sequence, i.e. that have acknowledged it. -/
theorem wait_for_acks_spec (repl : Replication) (n : Int) (t : Nat) (acks : Nat → List Nat)
    (hkeys : (repl.pending_acks.map Prod.fst).Nodup)
    (hsub : ∀ x ∈ pendingFor repl.pending_acks repl.write_sequence,
      x ∈ repl.replica_connections)
    (hnd : (pendingFor repl.pending_acks repl.write_sequence).Nodup)
    (hrep : repl.replica_connections.Nodup) :
    (repl.replica_connections = [] →
      wait_for_acks repl n t acks = ⟨0, repl.pending_acks, 0⟩)
    ∧ (repl.role = "master" → repl.replica_connections ≠ [] → repl.write_sequence = 0 →
        wait_for_acks repl n t acks =
          ⟨(repl.replica_connections.length : Int), repl.pending_acks, 0⟩)
    ∧ (wait_for_acks repl n t acks).steps ≤ t
    ∧ (repl.role = "master" → repl.replica_connections ≠ [] → repl.write_sequence ≠ 0 →
        (wait_for_acks repl n t acks).count =
          ((repl.replica_connections.filter (fun x =>
              decide (¬x ∈ pendingFor (wait_for_acks repl n t acks).pending
                repl.write_sequence))).length : Int)) := by
  refine ⟨?_, ?_, ?_, ?_⟩
  · intro h0
    by_cases hrole : repl.role = "master" <;> simp [wait_for_acks, hrole, h0]
  · intro hrole hne hw
    simp [wait_for_acks, hrole, hne, hw]
  · by_cases hrole : repl.role = "master"
    · by_cases h0 : repl.replica_connections = []
      · simp [wait_for_acks, hrole, h0]
      · by_cases hw : repl.write_sequence = 0
        · simp [wait_for_acks, hrole, h0, hw]
        · have hb := waitLoop_steps_le repl.replica_connections.length n
            repl.write_sequence acks t 0 repl.pending_acks
          simpa [wait_for_acks, hrole, h0, hw] using hb
    · simp [wait_for_acks, hrole]
  · intro hrole hne hw
    have hrun : wait_for_acks repl n t acks =
        waitLoop repl.replica_connections.length n repl.write_sequence acks t 0
          repl.pending_acks := by
      simp [wait_for_acks, hrole, hne, hw]
    have hinv := waitLoop_invariant repl.replica_connections.length n repl.write_sequence
      acks t 0 repl.pending_acks hkeys
    rw [hrun]
    have hssub : (pendingFor (waitLoop repl.replica_connections.length n
        repl.write_sequence acks t 0 repl.pending_acks).pending
          repl.write_sequence).Sublist
        (pendingFor repl.pending_acks repl.write_sequence) := hinv.2.2
    have hsnd := hnd.sublist hssub
    have hsmem : ∀ x ∈ pendingFor (waitLoop repl.replica_connections.length n
        repl.write_sequence acks t 0 repl.pending_acks).pending repl.write_sequence,
        x ∈ repl.replica_connections := fun x hx => hsub x (hssub.subset hx)
    have hfl := length_filter_not_mem repl.replica_connections _ hsnd hrep hsmem
    rw [hinv.1]
    simp only [countAcked]
    omega

/-- Witness for `wait_for_acks_spec`: two replicas, one pending write,
replica 2 acks at the second poll, so `WAIT 1 4` returns `1` after two
iterations with replica 1 still pending. -/
theorem wait_for_acks_witness :
    wait_for_acks ⟨"master", [1, 2], 3, [(3, [1, 2])]⟩ 1 4 waitAcksExample =
      ⟨1, [(3, [1])], 2⟩
    ∧ (wait_for_acks ⟨"master", [1, 2], 3, [(3, [1, 2])]⟩ 1 4 waitAcksExample).steps ≤ 4
    ∧ (wait_for_acks ⟨"master", [1, 2], 3, [(3, [1, 2])]⟩ 1 4 waitAcksExample).count =
        (([1, 2].filter (fun x => decide (¬x ∈
            pendingFor (wait_for_acks ⟨"master", [1, 2], 3, [(3, [1, 2])]⟩ 1 4
              waitAcksExample).pending 3))).length : Int)
    ∧ wait_for_acks ⟨"master", [], 0, []⟩ 2 7 waitAcksExample = ⟨0, [], 0⟩
    ∧ wait_for_acks ⟨"master", [5, 6], 0, []⟩ 2 7 waitAcksExample = ⟨2, [], 0⟩ := by
  have h := wait_for_acks_spec ⟨"master", [1, 2], 3, [(3, [1, 2])]⟩ 1 4 waitAcksExample
    (by decide) (by decide) (by decide) (by decide)
  have h0 := wait_for_acks_spec ⟨"master", [], 0, []⟩ 2 7 waitAcksExample
    (by decide) (by decide) (by decide) (by decide)
  have h2 := wait_for_acks_spec ⟨"master", [5, 6], 0, []⟩ 2 7 waitAcksExample
    (by decide) (by decide) (by decide) (by decide)
  refine ⟨by decide, h.2.2.1, h.2.2.2 rfl (by decide) (by decide), h0.1 rfl,
    h2.2.1 rfl (by decide) rfl⟩
